import Mathlib

/-!
Verification development for the web-conversor repository: a shallow
embedding of the adaptive conversion/inference engine (Schema Analyzer,
Confidence Scorer, Conversion Orchestrator, Format Emitters) and of the
frontend helpers in `src/utils/api.js` and `src/App.vue`.

The engine itself lives in the repository's Python backend (`api/`), which
is not part of the checked-out sources; every definition of the engine below
is therefore modelled from the specification's own words (each such
definition says so in its doc comment).  The frontend helpers
(`FileValidators.isExcelFile`, `APIClient` error handling, `formatIssue`,
`handleFileSelect`) are translated directly from the JavaScript sources.

Strings are modelled as `List Char` so that the character-level reasoning
(sanitization, rendering, predicate matching) stays elementary.
-/

namespace WebConversor

/-- Modelled from the spec (§9): per-cell values are a closed tagged variant
over Number, Text, Boolean, DateTime and Null.  The integer/float distinction
that the host representations (Python, JSON) preserve inside Number is kept as
two constructors; DateTime carries the year/month/day the ISO-8601 rendering
shows. -/
inductive Value where
  | int (n : ℤ)
  | float (q : ℚ)
  | bool (b : Bool)
  | datetime (y m d : ℕ)
  | text (s : List Char)
  | null
deriving DecidableEq

/-- Modelled from the spec (§3): the inferred column types
numeric, integer, text, datetime, email, boolean, unknown. -/
inductive ColType where
  | boolean
  | integer
  | numeric
  | datetime
  | email
  | text
  | unknown
deriving DecidableEq

/-- Decimal digit character for `n % 10`. -/
def digitChar (n : ℕ) : Char :=
  match n % 10 with
  | 0 => '0' | 1 => '1' | 2 => '2' | 3 => '3' | 4 => '4'
  | 5 => '5' | 6 => '6' | 7 => '7' | 8 => '8' | _ => '9'

/-- Decimal digits with explicit fuel (structural recursion keeps the
function computable by plain kernel reduction); the fallback for exhausted
fuel is never reached when the fuel exceeds the number. -/
def natDigitsF : ℕ → ℕ → List Char
  | 0, _ => ['0']
  | fuel + 1, n => if n < 10 then [digitChar n] else natDigitsF fuel (n / 10) ++ [digitChar n]

/-- Decimal digits of a natural number, most significant first. -/
def natDigits (n : ℕ) : List Char :=
  natDigitsF (n + 1) n

/-- Decimal rendering of an integer (leading minus sign when negative). -/
def renderInt (n : ℤ) : List Char :=
  if n < 0 then '-' :: natDigits n.natAbs else natDigits n.toNat

/-- Decimal-looking rendering of a rational: integral part, a dot, more
digits.  Only the shape (sign, digits, one dot) matters to the development;
no claim depends on the rendered numerals' value. -/
def renderFloat (q : ℚ) : List Char :=
  (if q.num < 0 then ['-'] else []) ++ natDigits q.num.natAbs ++ '.' :: natDigits q.den

/-- ISO-8601 date rendering `yyyy-mm-dd` (years taken modulo 10000). -/
def isoDate (y m d : ℕ) : List Char :=
  [digitChar (y / 1000), digitChar (y / 100), digitChar (y / 10), digitChar y, '-',
   digitChar (m / 10), digitChar m, '-', digitChar (d / 10), digitChar d]

/-- The six spellings of a boolean cell the analyzer's boolean predicate
accepts (modelled from the spec §4.1's ordered predicate list). -/
def boolStrings : List (List Char) :=
  ["true".toList, "false".toList, "True".toList, "False".toList,
   "TRUE".toList, "FALSE".toList]

/-- Whether the string spells a boolean. -/
def isBoolString (s : List Char) : Bool :=
  decide (s ∈ boolStrings)

/-- Whether the string spells an integer: an optional minus sign and then
one or more decimal digits. -/
def isIntString : List Char → Bool
  | [] => false
  | c :: rest =>
      if c = '-' then !rest.isEmpty && rest.all Char.isDigit
      else (c :: rest).all Char.isDigit

/-- The string with one leading minus sign removed. -/
def stripSign : List Char → List Char
  | [] => []
  | c :: rest => if c = '-' then rest else c :: rest

/-- Whether an unsigned string spells a number: digits, optionally followed
by a dot and more digits. -/
def isUnsignedNumeric (t : List Char) : Bool :=
  match t.dropWhile Char.isDigit with
  | [] => !t.isEmpty
  | x :: fr =>
      decide (x = '.') && !(t.takeWhile Char.isDigit).isEmpty &&
        !fr.isEmpty && fr.all Char.isDigit

/-- Whether the string spells a number: an optional minus sign, digits, and
optionally a dot followed by more digits. -/
def isNumericString (s : List Char) : Bool :=
  isUnsignedNumeric (stripSign s)

/-- Whether the string matches the ISO date pattern `yyyy-mm-dd` (modelled
from the spec §4.1: "datetime (multiple accepted patterns)", with the ISO
date as the representative pattern). -/
def isDatetimeString (s : List Char) : Bool :=
  match s with
  | [a, b, c, d, '-', e, f, '-', g, h] => [a, b, c, d, e, f, g, h].all Char.isDigit
  | _ => false

/-- Whether the string looks like an email address: something before an `@`,
and a domain after it that contains a dot and no further `@` (modelled from
the spec §4.1: "email (regex)"). -/
def isEmailString (s : List Char) : Bool :=
  match s.dropWhile (fun c => !(c = '@' : Bool)) with
  | '@' :: domain =>
      !(s.takeWhile (fun c => !(c = '@' : Bool))).isEmpty &&
      !domain.isEmpty && domain.all (fun c => !(c = '@' : Bool)) &&
      domain.any (fun c => (c = '.' : Bool))
  | _ => false

/-- The analyzer's per-value predicate for each candidate type (modelled from
the spec §4.1's ordered predicate list; `text`/`unknown` is the fallback and
matches nothing here). -/
def predFor : ColType → Value → Bool
  | .boolean, .bool _ => true
  | .boolean, .text s => isBoolString s
  | .boolean, _ => false
  | .integer, .int _ => true
  | .integer, .text s => isIntString s
  | .integer, _ => false
  | .numeric, .int _ => true
  | .numeric, .float _ => true
  | .numeric, .text s => isNumericString s
  | .numeric, _ => false
  | .datetime, .datetime _ _ _ => true
  | .datetime, .text s => isDatetimeString s
  | .datetime, _ => false
  | .email, .text s => isEmailString s
  | .email, _ => false
  | .text, _ => false
  | .unknown, _ => false

/-- Modelled from the spec (§3): a Dataset is an ordered sequence of records
(mappings from column name to raw value, here association lists) plus an
ordered sequence of column names. -/
structure Dataset where
  columns : List (List Char)
  records : List (List (List Char × Value))
deriving DecidableEq

/-- First binding of a key in an association-list record; a missing key reads
as `Value.null` (blank cell). -/
def cellOf (r : List (List Char × Value)) (c : List Char) : Value :=
  match r with
  | [] => .null
  | (k, v) :: rest => if k = c then v else cellOf rest c

/-- All raw values of one column, in record order. -/
def columnValues (d : Dataset) (c : List Char) : List Value :=
  d.records.map (fun r => cellOf r c)

/-- The sampled non-null values of a column: up to 100 of them (modelled from
the spec §4.1: "draw up to N sampled non-null values (N bounded, e.g. 100)"). -/
def sampleOf (vs : List Value) : List Value :=
  (vs.filter (fun v => !decide (v = Value.null))).take 100

/-- A quotient of two counts as a rational; 0 when the denominator is 0. -/
def ratio (num den : ℕ) : ℚ :=
  (num : ℚ) / (den : ℚ)

/-- Fraction of the sample a predicate matches. -/
def predRatio (p : Value → Bool) (sample : List Value) : ℚ :=
  ratio (sample.countP p) sample.length

/-- The supermajority threshold for type inference (modelled from the spec
§4.1: "a supermajority (configurable ratio, e.g. ≥0.8)"). -/
def supermajority : ℚ := 4 / 5

/-- The candidate types in the order the analyzer tests them (spec §4.1:
boolean, integer, numeric, datetime, email, else text). -/
def candidateTypes : List ColType :=
  [.boolean, .integer, .numeric, .datetime, .email]

/-- The first candidate type matched by a supermajority of the sample, if
any. -/
def winningType (sample : List Value) : Option ColType :=
  candidateTypes.find? (fun t => decide (supermajority ≤ predRatio (predFor t) sample))

/-- Modelled from the spec (§3): a per-column descriptor.  `ambiguous`
records that no predicate reached the supermajority threshold (the spec's
"ambiguous" columns, §4.2/§4.3); the orchestrator clears it when it coerces
or adopts a type for the column. -/
structure ColumnDescriptor where
  name : List Char
  inferredType : ColType
  missingRatio : ℚ
  sampleSize : ℕ
  matchRatio : ℚ
  ambiguous : Bool
deriving DecidableEq

/-- The matchRatio of a column: the winning predicate's fraction, or, on the
text fallback, the best (sub-threshold, hence "reduced") candidate fraction. -/
def matchRatioOf (sample : List Value) : ℚ :=
  match winningType sample with
  | some t => predRatio (predFor t) sample
  | none => (candidateTypes.map (fun t => predRatio (predFor t) sample)).foldr max 0

/-- Modelled from the spec (§4.1): the Schema Analyzer's per-column work —
the first predicate matched by a supermajority of the sample wins, ties or no
supermajority resolve to text, `missingRatio` is nulls over total rows (not
just the sample). -/
def analyzeColumn (d : Dataset) (c : List Char) : ColumnDescriptor :=
  { name := c
    inferredType := (winningType (sampleOf (columnValues d c))).getD .text
    missingRatio := ratio ((columnValues d c).countP (fun v => decide (v = Value.null)))
      (columnValues d c).length
    sampleSize := (sampleOf (columnValues d c)).length
    matchRatio := matchRatioOf (sampleOf (columnValues d c))
    ambiguous := (winningType (sampleOf (columnValues d c))).isNone }

/-- Modelled from the spec (§4.1): one descriptor per column of the dataset. -/
def analyzeDataset (d : Dataset) : List ColumnDescriptor :=
  d.columns.map (analyzeColumn d)

/-- Modelled from the spec (§4.2): aggregate confidence is the weighted mean
of per-column matchRatio, weight 1 − missingRatio, scaled to [0,100]. -/
def aggregateConfidence (ds : List ColumnDescriptor) : ℚ :=
  let wsum := (ds.map (fun d => 1 - d.missingRatio)).sum
  let msum := (ds.map (fun d => d.matchRatio * (1 - d.missingRatio))).sum
  100 * (msum / wsum)

/-- Modelled from the spec (§4.2): the issue string
`high_missing_data_in_columns_<name>` for a column. -/
def highMissingIssue (name : List Char) : List Char :=
  "high_missing_data_in_columns_".toList ++ name

/-- Modelled from the spec (§4.2): the issue string `ambiguous_type_<name>`. -/
def ambiguousIssue (name : List Char) : List Char :=
  "ambiguous_type_".toList ++ name

/-- Modelled from the spec (§4.2): issue detection over a descriptor list —
`high_missing_data_in_columns_<name>` when missingRatio > 0.3, and
`ambiguous_type_<name>` when no predicate reached the supermajority. -/
def detectIssues (ds : List ColumnDescriptor) : List (List Char) :=
  ((ds.filter (fun d => decide ((3 : ℚ) / 10 < d.missingRatio))).map
      (fun d => highMissingIssue d.name))
    ++ (ds.filter (fun d => d.ambiguous)).map (fun d => ambiguousIssue d.name)

/-- Modelled from the spec (§3): the request fields the orchestrator's
decisions read. -/
structure ConversionRequest where
  useAI : Bool
  confidenceThreshold : ℚ
deriving DecidableEq

/-- Modelled from the spec (glossary): the four processing modes. -/
inductive ProcessingMode where
  | deterministic
  | aiPowered
  | hybrid
  | fallbackOptimization
deriving DecidableEq

/-- Modelled from the spec (§4.3): the trigger-reason values. -/
inductive TriggerReason where
  | lowConfidenceBelowThreshold
  | ambiguousColumnTypes
  | aiUnavailableFallback
  | userRequested
deriving DecidableEq

/-- Modelled from the spec (§4.4): one per-column suggestion the AI
Augmentation Port returns. -/
structure AISuggestion where
  name : List Char
  suggestedType : ColType
  confidence : ℚ
deriving DecidableEq

/-- Modelled from the spec (§4.4): the port's outcome — a success with
per-column suggestions and an aggregate confidence, or a failure (timeout,
error, unavailable; one first-class outcome covers all three). -/
inductive PortOutcome where
  | success (perColumn : List AISuggestion) (aggregate : ℚ)
  | failure
deriving DecidableEq

/-- The port's suggestion for a named column, if any. -/
def suggestionFor (sugs : List AISuggestion) (c : List Char) : Option AISuggestion :=
  sugs.find? (fun s => decide (s.name = c))

/-- Modelled from the spec (§4.3.3): whether the AI suggestion is adopted for
a column — only where the AI's reported per-column confidence exceeds the
deterministic matchRatio. -/
def adoptsAI (sugs : List AISuggestion) (d : ColumnDescriptor) : Bool :=
  match suggestionFor sugs d.name with
  | some s => decide (d.matchRatio < s.confidence)
  | none => false

/-- Modelled from the spec (§4.3.3, hybrid merge): per column, adopt the
AI-suggested type exactly where `adoptsAI` holds, otherwise keep the
deterministic descriptor; an adopted column is no longer ambiguous. -/
def mergeDescriptor (sugs : List AISuggestion) (d : ColumnDescriptor) : ColumnDescriptor :=
  match suggestionFor sugs d.name with
  | some s =>
      if d.matchRatio < s.confidence then
        { d with inferredType := s.suggestedType, matchRatio := s.confidence,
                 ambiguous := false }
      else d
  | none => d

/-- Modelled from the spec (§4.3.3, FALLBACK): safe heuristic repairs —
ambiguous columns coerced to text, fully-empty columns dropped from the
output. -/
def fallbackRepair (ds : List ColumnDescriptor) : List ColumnDescriptor :=
  (ds.filter (fun d => !decide (d.missingRatio = 1))).map
    (fun d => if d.ambiguous then { d with inferredType := ColType.text, ambiguous := false } else d)

/-- The orchestrator's mode decision plus the data the metadata envelope is
assembled from. -/
structure OrchestrationResult where
  processingMode : ProcessingMode
  aiUsed : Bool
  triggerReason : Option TriggerReason
  finalDescriptors : List ColumnDescriptor
  issuesDetected : List (List Char)
deriving DecidableEq

/-- Modelled from the spec (§4.3): the Conversion Orchestrator's state
machine.  `useAI = false` or baseline confidence at/above the threshold give
DETERMINISTIC_ACCEPTED; otherwise the AI port is consulted: a failure gives
FALLBACK (`fallback_optimization`, aiUsed = false, trigger
`ai_unavailable_fallback`), a success gives AI_POWERED when its aggregate
confidence reaches the threshold and every ambiguous column's suggestion is
adopted, HYBRID_MERGE otherwise.  Issues are recomputed against the final
descriptors (§4.3 step 4). -/
def orchestrate (req : ConversionRequest) (ds : List ColumnDescriptor)
    (port : PortOutcome) : OrchestrationResult :=
  if req.useAI = false ∨ req.confidenceThreshold ≤ aggregateConfidence ds then
    ⟨.deterministic, false, none, ds, detectIssues ds⟩
  else
    match port with
    | .failure =>
        let final := fallbackRepair ds
        ⟨.fallbackOptimization, false, some .aiUnavailableFallback, final,
          detectIssues final⟩
    | .success sugs aggregate =>
        let final := ds.map (mergeDescriptor sugs)
        if req.confidenceThreshold ≤ aggregate ∧ ds.all (fun d => !d.ambiguous || adoptsAI sugs d) then
          ⟨.aiPowered, true, some .lowConfidenceBelowThreshold, final,
            detectIssues final⟩
        else
          ⟨.hybrid, true, some .lowConfidenceBelowThreshold, final,
            detectIssues final⟩

/-- Value of a digit string (digits left to right). -/
def parseNatDigits (s : List Char) : ℕ :=
  s.foldl (fun a c => 10 * a + (c.toNat - 48)) 0

/-- Integer value of an integer-looking string. -/
def parseIntString : List Char → ℤ
  | '-' :: rest => -(parseNatDigits rest : ℤ)
  | s => (parseNatDigits s : ℤ)

/-- Rational value of a number-looking string. -/
def parseRatString (s : List Char) : ℚ :=
  let t := match s with | '-' :: rest => rest | _ => s
  let sign : ℚ := match s with | '-' :: _ => -1 | _ => 1
  match t.dropWhile Char.isDigit with
  | '.' :: fr =>
      sign * ((parseNatDigits (t.takeWhile Char.isDigit) : ℚ) +
        (parseNatDigits fr : ℚ) / (10 : ℚ) ^ fr.length)
  | _ => sign * (parseNatDigits t : ℚ)

/-- The boolean a boolean-looking string spells. -/
def boolStringVal (s : List Char) : Bool :=
  decide (s ∈ ["true".toList, "True".toList, "TRUE".toList])

/-- The datetime value of an ISO-date-looking string (other strings are left
as text; the coercion only applies it to matching strings). -/
def parseDatetimeString (s : List Char) : Value :=
  match s with
  | [a, b, c, d, '-', e, f, '-', g, h] =>
      .datetime (parseNatDigits [a, b, c, d]) (parseNatDigits [e, f]) (parseNatDigits [g, h])
  | _ => .text s

/-- String rendering of a value (the text/email/unknown → string coercion of
spec §4.5); null stays the missing marker. -/
def renderToText : Value → Value
  | .int n => .text (renderInt n)
  | .float q => .text (renderFloat q)
  | .bool true => .text ("true".toList)
  | .bool false => .text ("false".toList)
  | .datetime y m d => .text (isoDate y m d)
  | .text s => .text s
  | .null => .null

/-- Modelled from the spec (§4.5, JSON emitter): values are coerced per the
column's inferred type — numeric→number, boolean→true/false, datetime→ISO
string, text/email/unknown→string.  A value the column type's predicate does
not match is left unchanged (best-effort coercion; §7's EmissionError is out
of this model's scope). -/
def coerceValue (t : ColType) (v : Value) : Value :=
  match t with
  | .integer =>
      if predFor .integer v then
        match v with
        | .text s => .int (parseIntString s)
        | v => v
      else v
  | .numeric =>
      if predFor .numeric v then
        match v with
        | .text s => if isIntString s then .int (parseIntString s) else .float (parseRatString s)
        | v => v
      else v
  | .boolean =>
      if predFor .boolean v then
        match v with
        | .text s => .bool (boolStringVal s)
        | v => v
      else v
  | .datetime =>
      if predFor .datetime v then
        match v with
        | .text s => parseDatetimeString s
        | v => v
      else v
  | .email => v
  | .text => renderToText v
  | .unknown => renderToText v

/-- The inferred type the descriptor list records for a named column (text
when it records none). -/
def typeFor (ds : List ColumnDescriptor) (c : List Char) : ColType :=
  match ds.find? (fun d => decide (d.name = c)) with
  | some d => d.inferredType
  | none => .text

/-- One emitted cell: a missing value stays null, anything else is coerced
per the column's type. -/
def coerceCell (t : ColType) (v : Value) : Value :=
  match v with
  | .null => Value.null
  | v => coerceValue t v

/-- The value the JSON emitter writes for column `c` of record `r`. -/
def emitCell (ds : List ColumnDescriptor) (r : List (List Char × Value))
    (c : List Char) : Value :=
  coerceCell (typeFor ds c) (cellOf r c)

/-- Modelled from the spec (§4.5, JSON emitter): one ordered record per
dataset record, keys in the dataset's column order, values coerced per the
final descriptors' inferred types, missing values emitted as null. -/
def jsonEmit (d : Dataset) (ds : List ColumnDescriptor) :
    List (List (List Char × Value)) :=
  d.records.map (fun r => d.columns.map (fun c => (c, emitCell ds r c)))

/-- Appends a key to the accumulator unless it is already present. -/
def insertKey (acc : List (List Char)) (k : List Char) : List (List Char) :=
  if k ∈ acc then acc else acc ++ [k]

/-- The keys of one JSON object, in order. -/
def recordKeys (r : List (List Char × Value)) : List (List Char) :=
  r.map Prod.fst

/-- Modelled from the spec (§4.5, spreadsheet emitter): the header row is the
union of all keys across the input objects, in first-seen order. -/
def seenKeys (objs : List (List (List Char × Value))) : List (List Char) :=
  objs.foldl (fun acc r => (recordKeys r).foldl insertKey acc) []

/-- Modelled from the spec (§4.5, spreadsheet emitter): header = first-seen
union of keys, one data row per object; a key an object lacks reads as blank
(`cellOf` yields null for it). -/
def spreadsheetEmit (objs : List (List (List Char × Value))) : Dataset :=
  { columns := seenKeys objs, records := objs }

/-- JSON text of one value. -/
def renderJsonValue : Value → List Char
  | .int n => renderInt n
  | .float q => renderFloat q
  | .bool true => "true".toList
  | .bool false => "false".toList
  | .datetime y m d => '\"' :: (isoDate y m d ++ ['\"'])
  | .text s => '\"' :: (s ++ ['\"'])
  | .null => "null".toList

/-- Comma-join of rendered pieces. -/
def joinComma : List (List Char) → List Char
  | [] => []
  | [x] => x
  | x :: rest => x ++ ',' :: joinComma rest

/-- JSON text of one emitted record. -/
def renderJsonRecord (r : List (List Char × Value)) : List Char :=
  '{' :: (joinComma (r.map (fun kv => '\"' :: (kv.1 ++ '\"' :: ':' :: renderJsonValue kv.2))) ++ ['}'])

/-- JSON text of the emitted record array (the conversion's byte output). -/
def renderJsonOut (objs : List (List (List Char × Value))) : List Char :=
  '[' :: (joinComma (objs.map renderJsonRecord) ++ [']'])

/-- The metadata's columnTypes mapping: name → inferred type. -/
def columnTypesOf (ds : List ColumnDescriptor) : List (List Char × ColType) :=
  ds.map (fun d => (d.name, d.inferredType))

/-- What one conversion returns to the caller in this model: the rendered
JSON bytes, the columnTypes mapping, and the orchestration metadata. -/
structure ConversionOutput where
  jsonText : List Char
  columnTypes : List (List Char × ColType)
  result : OrchestrationResult
deriving DecidableEq

/-- Modelled from the spec (§2 data flow): analyze, orchestrate (possibly
consulting the AI port), then emit JSON with the final descriptors. -/
def runConversion (req : ConversionRequest) (d : Dataset) (port : PortOutcome) :
    ConversionOutput :=
  let ds := analyzeDataset d
  let orch := orchestrate req ds port
  { jsonText := renderJsonOut (jsonEmit d orch.finalDescriptors)
    columnTypes := columnTypesOf orch.finalDescriptors
    result := orch }

/-- Whether a character is in the SQL identifier class `[A-Za-z0-9_]`. -/
def isWordChar (c : Char) : Bool :=
  c.isAlpha || c.isDigit || decide (c = '_')

/-- Modelled from the spec (§4.5, SQL emitter): sanitize one identifier —
strip characters outside `[A-Za-z0-9_]`, prefix `_` if the result starts with
a digit, truncate to 63 characters. -/
def sanitizeBase (name : List Char) : List Char :=
  let stripped := name.filter isWordChar
  let prefixed :=
    match stripped with
    | c :: _ => if c.isDigit then '_' :: stripped else stripped
    | [] => []
  prefixed.take 63

/-- Greatest length among the names already emitted. -/
def maxLen (used : List (List Char)) : ℕ :=
  used.foldr (fun s m => max s.length m) 0

/-- Modelled from the spec (§4.5, SQL emitter): de-duplicate a collision by
appending a numeric suffix — here a run of `1` digits long enough that the
result is longer than every name already taken, hence fresh. -/
def freshName (used : List (List Char)) (base : List Char) : List Char :=
  if base ∈ used then base ++ List.replicate (maxLen used + 1) '1' else base

/-- Left-to-right de-duplication of sanitized identifiers against the names
already emitted. -/
def dedupNames (used : List (List Char)) : List (List Char) → List (List Char)
  | [] => []
  | n :: rest =>
      let n2 := freshName used n
      n2 :: dedupNames (n2 :: used) rest

/-- Modelled from the spec (§4.5, SQL emitter): the emitted identifiers of a
list of source column names — each sanitized, collisions de-duplicated. -/
def emitIdentifiers (names : List (List Char)) : List (List Char) :=
  dedupNames [] (names.map sanitizeBase)

/-- Whether a character may start a SQL identifier: `[A-Za-z_]`. -/
def isIdentFirstChar (c : Char) : Bool :=
  c.isAlpha || decide (c = '_')

/-- The claim's regular expression `[A-Za-z_][A-Za-z0-9_]{0,62}` as a
predicate on whole strings. -/
def matchesIdentRegex (s : List Char) : Bool :=
  match s with
  | [] => false
  | c :: rest => isIdentFirstChar c && rest.all isWordChar && decide (rest.length ≤ 62)

/-- JavaScript values as far as the api.js error path inspects them:
enough structure for truthiness and string coercion. -/
inductive JsValue where
  | undef
  | jnull
  | jbool (b : Bool)
  | jnum (q : ℚ)
  | jstr (s : List Char)
deriving DecidableEq

/-- JavaScript truthiness of a `JsValue`. -/
def truthy : JsValue → Bool
  | .undef => false
  | .jnull => false
  | .jbool b => b
  | .jnum q => !decide (q = 0)
  | .jstr s => !s.isEmpty

/-- JavaScript string coercion of a `JsValue` (what `new Error(x)` records). -/
def jsString : JsValue → List Char
  | .undef => "undefined".toList
  | .jnull => "null".toList
  | .jbool true => "true".toList
  | .jbool false => "false".toList
  | .jnum q => renderFloat q
  | .jstr s => s

/-- An HTTP response as the APIClient methods inspect it: `ok`, `status`, and
the `message` field of the JSON-parsed body — `none` when the body is not
parseable JSON, `some .undef` when it parses but has no message field. -/
structure HttpResponse where
  ok : Bool
  status : ℕ
  parsedMessage : Option JsValue
deriving DecidableEq

/-- From src/utils/api.js lines 33-36 (same code at 62-65 and 84-87): the
message of the thrown Error —
`const error = await response.json().catch(() => ({ message: 'Unknown error' }));`
`throw new Error(error.message || ` then `HTTP ${response.status}`  `);`. -/
def errorMessageText (status : ℕ) (parsed : Option JsValue) : List Char :=
  let m := parsed.getD (JsValue.jstr ("Unknown error".toList))
  if truthy m then jsString m else "HTTP ".toList ++ natDigits status

/-- From src/utils/api.js (`convertExcelToJSON`, `convertJSONToExcel`,
`convertExcelToSQL` share this shape): a non-ok response throws the Error
built by `errorMessageText` and yields no result; an ok response yields the
parsed payload. -/
def apiConvert (resp : HttpResponse) (payload : JsValue) : Except (List Char) JsValue :=
  if resp.ok then .ok payload else .error (errorMessageText resp.status resp.parsedMessage)

/-- Global single-character replacement (the JS `replace(/_/g, ' ')`). -/
def replaceAllChar (a b : Char) (s : List Char) : List Char :=
  s.map (fun c => if c = a then b else c)

/-- Whether `pat` occurs at the start of `s`. -/
def matchesAt : List Char → List Char → Bool
  | [], _ => true
  | _ :: _, [] => false
  | p :: ps, c :: cs => decide (p = c) && matchesAt ps cs

/-- First-occurrence substring replacement (the JS non-global
`replace(pattern, rep)` for a plain pattern). -/
def replaceFirstSub (pat rep : List Char) : List Char → List Char
  | [] => if pat.isEmpty then rep else []
  | c :: rest =>
      if matchesAt pat (c :: rest) then rep ++ (c :: rest).drop pat.length
      else c :: replaceFirstSub pat rep rest

/-- From src/App.vue lines 802-806: `formatIssue` first replaces every
underscore with a space, then replaces the (underscore-containing) prefix
`high_missing_data_in_columns_` with `Missing data in columns: `. -/
def formatIssue (issue : List Char) : List Char :=
  replaceFirstSub "high_missing_data_in_columns_".toList
    "Missing data in columns: ".toList (replaceAllChar '_' ' ' issue)

/-- A file as the upload handlers inspect it: declared MIME type and name. -/
structure UploadFile where
  mimeType : List Char
  name : List Char
deriving DecidableEq

/-- From src/utils/api.js lines 120-124 (and the identical list in
src/App.vue lines 422-426): the three accepted spreadsheet MIME types. -/
def excelMimeTypes : List (List Char) :=
  ["application/vnd.openxmlformats-officedocument.spreadsheetml.sheet".toList,
   "application/vnd.ms-excel".toList,
   "text/csv".toList]

/-- Lower-cased characters of a name (the `/i` flag of the extension regex). -/
def lowerChars (s : List Char) : List Char :=
  s.map Char.toLower

/-- Whether `suf` is a suffix of `s`. -/
def hasSuffix (suf s : List Char) : Bool :=
  matchesAt suf.reverse s.reverse

/-- From src/utils/api.js line 126: the test
`file.name.match(/\.(xlsx?|csv)$/i)` — the name ends, case-insensitively,
in `.xls`, `.xlsx` or `.csv`. -/
def excelNameRegex (name : List Char) : Bool :=
  hasSuffix ".xls".toList (lowerChars name) || hasSuffix ".xlsx".toList (lowerChars name)
    || hasSuffix ".csv".toList (lowerChars name)

/-- From src/utils/api.js lines 119-127: `FileValidators.isExcelFile` —
accepted MIME type or accepted extension. -/
def isExcelFile (f : UploadFile) : Bool :=
  decide (f.mimeType ∈ excelMimeTypes) || excelNameRegex f.name

/-- From src/App.vue lines 417-443 (`handleFileSelect`, option 1): the file
is rejected when `!validTypes.includes(file.type) && !file.name.match(...)`;
this is the acceptance side of that test, double negation kept. -/
def handleFileSelectAccepts (f : UploadFile) : Bool :=
  !(!decide (f.mimeType ∈ excelMimeTypes) && !excelNameRegex f.name)

/-- The acceptance predicate in the claim's own words: declared MIME type is
one of the three spreadsheet MIME types, or the file name ends in `.xlsx`,
`.xls` or `.csv` case-insensitively. -/
def claimAccepts (f : UploadFile) : Bool :=
  decide (f.mimeType ∈ excelMimeTypes)
    || hasSuffix ".xlsx".toList (lowerChars f.name)
    || hasSuffix ".xls".toList (lowerChars f.name)
    || hasSuffix ".csv".toList (lowerChars f.name)

theorem ratio_nonneg (a b : ℕ) : 0 ≤ ratio a b := by
  unfold ratio
  positivity

theorem ratio_le_one {a b : ℕ} (h : a ≤ b) : ratio a b ≤ 1 := by
  unfold ratio
  rcases Nat.eq_zero_or_pos b with hb | hb
  · subst hb
    simp
  · rw [div_le_one (by exact_mod_cast hb)]
    exact_mod_cast h

theorem predRatio_nonneg (p : Value → Bool) (sample : List Value) :
    0 ≤ predRatio p sample :=
  ratio_nonneg _ _

theorem predRatio_le_one (p : Value → Bool) (sample : List Value) :
    predRatio p sample ≤ 1 :=
  ratio_le_one (List.countP_le_length p)

theorem foldr_max_nonneg (l : List ℚ) : 0 ≤ l.foldr max 0 := by
  induction l with
  | nil => simp
  | cons x xs ih => exact le_trans ih (le_max_right _ _)

theorem foldr_max_le_one {l : List ℚ} (h : ∀ x ∈ l, x ≤ 1) : l.foldr max 0 ≤ 1 := by
  induction l with
  | nil => norm_num
  | cons x xs ih =>
      simp only [List.foldr_cons]
      exact max_le (h x (by simp)) (ih fun y hy => h y (by simp [hy]))

theorem matchRatioOf_nonneg (sample : List Value) : 0 ≤ matchRatioOf sample := by
  unfold matchRatioOf
  cases winningType sample with
  | some t => exact predRatio_nonneg _ _
  | none => exact foldr_max_nonneg _

theorem matchRatioOf_le_one (sample : List Value) : matchRatioOf sample ≤ 1 := by
  unfold matchRatioOf
  cases winningType sample with
  | some t => exact predRatio_le_one _ _
  | none =>
      refine foldr_max_le_one fun x hx => ?_
      obtain ⟨t, _, rfl⟩ := List.mem_map.mp hx
      exact predRatio_le_one _ _

theorem analyzeColumn_matchRatio_bounds (d : Dataset) (c : List Char) :
    0 ≤ (analyzeColumn d c).matchRatio ∧ (analyzeColumn d c).matchRatio ≤ 1 :=
  ⟨matchRatioOf_nonneg _, matchRatioOf_le_one _⟩

theorem analyzeColumn_missingRatio_bounds (d : Dataset) (c : List Char) :
    0 ≤ (analyzeColumn d c).missingRatio ∧ (analyzeColumn d c).missingRatio ≤ 1 :=
  ⟨ratio_nonneg _ _, ratio_le_one (List.countP_le_length _)⟩

theorem aggregateConfidence_bounds (ds : List ColumnDescriptor)
    (h : ∀ d ∈ ds, 0 ≤ d.matchRatio ∧ d.matchRatio ≤ 1 ∧ 0 ≤ 1 - d.missingRatio) :
    0 ≤ aggregateConfidence ds ∧ aggregateConfidence ds ≤ 100 := by
  unfold aggregateConfidence
  have hw : 0 ≤ (ds.map (fun d => 1 - d.missingRatio)).sum := by
    refine List.sum_nonneg ?_
    intro x hx
    obtain ⟨d, hd, rfl⟩ := List.mem_map.mp hx
    exact (h d hd).2.2
  have hm : 0 ≤ (ds.map (fun d => d.matchRatio * (1 - d.missingRatio))).sum := by
    refine List.sum_nonneg ?_
    intro x hx
    obtain ⟨d, hd, rfl⟩ := List.mem_map.mp hx
    exact mul_nonneg (h d hd).1 (h d hd).2.2
  have hle : (ds.map (fun d => d.matchRatio * (1 - d.missingRatio))).sum
      ≤ (ds.map (fun d => 1 - d.missingRatio)).sum := by
    refine List.sum_le_sum ?_
    intro d hd
    have h1 := h d hd
    nlinarith [h1.1, h1.2.1, h1.2.2]
  rcases eq_or_lt_of_le hw with hw0 | hwpos
  · have : (ds.map (fun d => d.matchRatio * (1 - d.missingRatio))).sum = 0 :=
      le_antisymm (by rw [← hw0] at hle; exact hle) hm
    rw [this]
    norm_num
  · constructor
    · positivity
    · have hdiv : (ds.map (fun d => d.matchRatio * (1 - d.missingRatio))).sum
          / (ds.map (fun d => 1 - d.missingRatio)).sum ≤ 1 :=
        (div_le_one hwpos).mpr hle
      nlinarith

/-- C2: every aggregate confidence a conversion produces — the weighted mean
of per-column matchRatio with weight 1 − missingRatio, scaled to [0,100]
(that is the definition of `aggregateConfidence`) — lies in [0, 100]. -/
theorem confidenceWithinBounds (D : Dataset) :
    0 ≤ aggregateConfidence (analyzeDataset D) ∧
      aggregateConfidence (analyzeDataset D) ≤ 100 := by
  refine aggregateConfidence_bounds _ fun d hd => ?_
  obtain ⟨c, _, rfl⟩ := List.mem_map.mp hd
  refine ⟨(analyzeColumn_matchRatio_bounds D c).1,
    (analyzeColumn_matchRatio_bounds D c).2, ?_⟩
  have := (analyzeColumn_missingRatio_bounds D c).2
  linarith

/-- C1 counterexample: a run the spec's own FALLBACK rule produces — baseline
confidence 50 below the threshold 80, AI port fails — has `aiUsed = false`
with `processingMode = fallback_optimization`, so the claimed equivalence
`processingMode == "deterministic" ⟺ aiUsed == false` is false of it. -/
theorem orchestrate_fallback {req : ConversionRequest} {ds : List ColumnDescriptor}
    (h1 : req.useAI = true) (h2 : aggregateConfidence ds < req.confidenceThreshold) :
    orchestrate req ds .failure =
      ⟨.fallbackOptimization, false, some .aiUnavailableFallback,
        fallbackRepair ds, detectIssues (fallbackRepair ds)⟩ := by
  unfold orchestrate
  rw [if_neg]
  push_neg
  exact ⟨by simp [h1], h2⟩

theorem fallbackBreaksDeterministicIff :
    ((orchestrate ⟨true, 80⟩ [⟨['a'], .text, 0, 2, 1 / 2, true⟩] .failure).aiUsed = false) ∧
      ¬((orchestrate ⟨true, 80⟩ [⟨['a'], .text, 0, 2, 1 / 2, true⟩] .failure).processingMode
          = .deterministic) := by
  rw [orchestrate_fallback rfl (by norm_num [aggregateConfidence])]
  exact ⟨rfl, by simp⟩

/-- C1 amended: deterministic mode does imply `aiUsed = false`, but the
converse direction of the claim must include the fallback mode: for every
orchestration result, `aiUsed = false` holds exactly when the processing
mode is deterministic or fallback_optimization. -/
theorem aiUsedIffNonDeterministicModes (req : ConversionRequest)
    (ds : List ColumnDescriptor) (port : PortOutcome) :
    ((orchestrate req ds port).processingMode = .deterministic →
        (orchestrate req ds port).aiUsed = false) ∧
      ((orchestrate req ds port).aiUsed = false ↔
        ((orchestrate req ds port).processingMode = .deterministic ∨
          (orchestrate req ds port).processingMode = .fallbackOptimization)) := by
  unfold orchestrate
  split
  · simp
  · split
    · simp
    · split <;> simp

/-- C3: with `useAI = true` and baseline confidence below the threshold, a
failing AI port still completes the request through FALLBACK — mode
`fallback_optimization`, `aiUsed = false`, trigger `ai_unavailable_fallback`,
with the repaired descriptors and their recomputed issues; the failure is
absorbed, not surfaced. -/
theorem aiFailureFallsBack (req : ConversionRequest) (ds : List ColumnDescriptor)
    (h1 : req.useAI = true) (h2 : aggregateConfidence ds < req.confidenceThreshold) :
    orchestrate req ds .failure =
      ⟨.fallbackOptimization, false, some .aiUnavailableFallback,
        fallbackRepair ds, detectIssues (fallbackRepair ds)⟩ :=
  orchestrate_fallback h1 h2

theorem aiFailureFallsBack_witness :
    orchestrate ⟨true, 80⟩ [⟨['a'], .text, 0, 2, 1 / 2, true⟩] .failure =
      ⟨.fallbackOptimization, false, some .aiUnavailableFallback,
        fallbackRepair [⟨['a'], .text, 0, 2, 1 / 2, true⟩],
        detectIssues (fallbackRepair [⟨['a'], .text, 0, 2, 1 / 2, true⟩])⟩ :=
  aiFailureFallsBack ⟨true, 80⟩ [⟨['a'], .text, 0, 2, 1 / 2, true⟩] rfl (by
    show aggregateConfidence [⟨['a'], .text, 0, 2, 1 / 2, true⟩] < 80
    norm_num [aggregateConfidence])

/-- C5: with `useAI = false` the conversion is a pure function of the input —
the whole output (rendered JSON bytes, columnTypes, metadata) does not
depend on the AI port at all, so repeated conversions of identical input are
byte-identical. -/
theorem deterministicOutputIgnoresPort (req : ConversionRequest) (D : Dataset)
    (p1 p2 : PortOutcome) (h : req.useAI = false) :
    runConversion req D p1 = runConversion req D p2 := by
  unfold runConversion orchestrate
  simp [h]

theorem deterministicOutputIgnoresPort_witness :
    runConversion ⟨false, 80⟩ ⟨[['a']], [[(['a'], .int 1)]]⟩ .failure =
      runConversion ⟨false, 80⟩ ⟨[['a']], [[(['a'], .int 1)]]⟩ (.success [] 0) :=
  deterministicOutputIgnoresPort ⟨false, 80⟩ ⟨[['a']], [[(['a'], .int 1)]]⟩
    .failure (.success [] 0) rfl

theorem issuesDetected_eq_detect (req : ConversionRequest)
    (ds : List ColumnDescriptor) (port : PortOutcome) :
    (orchestrate req ds port).issuesDetected =
      detectIssues (orchestrate req ds port).finalDescriptors := by
  unfold orchestrate
  split
  · simp
  · split
    · simp
    · split <;> simp

theorem mem_detectIssues_of_highMissing {ds : List ColumnDescriptor}
    {d : ColumnDescriptor} (hd : d ∈ ds) (hm : (3 : ℚ) / 10 < d.missingRatio) :
    highMissingIssue d.name ∈ detectIssues ds := by
  unfold detectIssues
  refine List.mem_append_left _ ?_
  exact List.mem_map_of_mem _ (List.mem_filter.mpr ⟨hd, by simpa using hm⟩)

/-- C4 counterexample: in the FALLBACK path a fully-empty column (missing
ratio 1 > 0.3) is dropped from the output, so its
`high_missing_data_in_columns_<name>` issue is absent from the recomputed
`issuesDetected` even though its missing ratio exceeds 0.3. -/
theorem predRatio_nil (p : Value → Bool) : predRatio p [] = 0 := by
  simp [predRatio, ratio]

theorem winningType_nil : winningType [] = none := by
  have h : ¬(supermajority ≤ predRatio (predFor .boolean) []) := by
    rw [predRatio_nil]
    norm_num [supermajority]
  simp only [winningType, candidateTypes, List.find?]
  rw [predRatio_nil] at h
  simp [predRatio_nil, decide_eq_false h]

theorem matchRatioOf_nil : matchRatioOf [] = 0 := by
  simp [matchRatioOf, winningType_nil, candidateTypes, predRatio_nil]

theorem analyzeColumn_emptyCol :
    analyzeColumn ⟨[['b']], [[(['c'], .int 1)], [(['c'], .int 1)]]⟩ ['b'] =
      ⟨['b'], .text, 1, 0, 0, true⟩ := by
  have hcol : columnValues ⟨[['b']], [[(['c'], .int 1)], [(['c'], .int 1)]]⟩ ['b'] =
      [Value.null, Value.null] := by
    simp [columnValues, cellOf]
  simp [analyzeColumn, hcol, sampleOf, winningType_nil, matchRatioOf_nil, ratio]

/-- C4 counterexample: in the FALLBACK path a fully-empty column (missing
ratio 1 > 0.3) is dropped from the output, so its
`high_missing_data_in_columns_<name>` issue is absent from the recomputed
`issuesDetected` even though its missing ratio exceeds 0.3. -/
theorem droppedColumnLosesHighMissingIssue :
    (3 : ℚ) / 10 <
        (analyzeColumn ⟨[['b']], [[(['c'], .int 1)], [(['c'], .int 1)]]⟩ ['b']).missingRatio ∧
      highMissingIssue ['b'] ∉
        (orchestrate ⟨true, 80⟩
            (analyzeDataset ⟨[['b']], [[(['c'], .int 1)], [(['c'], .int 1)]]⟩)
            .failure).issuesDetected := by
  have hds : analyzeDataset ⟨[['b']], [[(['c'], .int 1)], [(['c'], .int 1)]]⟩ =
      [⟨['b'], ColType.text, 1, 0, 0, true⟩] := by
    simp [analyzeDataset, analyzeColumn_emptyCol]
  constructor
  · rw [analyzeColumn_emptyCol]
    norm_num
  · rw [hds, orchestrate_fallback rfl (by norm_num [aggregateConfidence])]
    have hrep : fallbackRepair [(⟨['b'], ColType.text, 1, 0, 0, true⟩ : ColumnDescriptor)] = [] := by
      simp [fallbackRepair]
    rw [hrep]
    simp [detectIssues]

/-- C4 amended: every column present in the final descriptor set (fallback
repair may have dropped fully-empty columns) whose missing ratio exceeds 0.3
appears in `issuesDetected` as `high_missing_data_in_columns_<name>`. -/
theorem highMissingColumnsFlagged (req : ConversionRequest)
    (ds : List ColumnDescriptor) (port : PortOutcome) (d : ColumnDescriptor)
    (hd : d ∈ (orchestrate req ds port).finalDescriptors)
    (hm : (3 : ℚ) / 10 < d.missingRatio) :
    highMissingIssue d.name ∈ (orchestrate req ds port).issuesDetected := by
  rw [issuesDetected_eq_detect]
  exact mem_detectIssues_of_highMissing hd hm

theorem highMissingColumnsFlagged_witness :
    highMissingIssue ['b'] ∈
      (orchestrate ⟨false, 0⟩ [⟨['b'], .text, 1 / 2, 1, 0, false⟩] .failure).issuesDetected :=
  highMissingColumnsFlagged ⟨false, 0⟩ [⟨['b'], .text, 1 / 2, 1, 0, false⟩] .failure
    ⟨['b'], .text, 1 / 2, 1, 0, false⟩ (by simp [orchestrate]) (by norm_num)

/-- C8 counterexample: a non-ok response whose body parses to
`{"message": ""}` has the message field present, yet the thrown message is
`HTTP 500`, not the field's value — the `error.message || ...` fallback
fires on any falsy message, not only on an absent one. -/
theorem falsyMessageFallsBackToStatus :
    apiConvert ⟨false, 500, some (.jstr [])⟩ .jnull =
        .error ("HTTP 500".toList) ∧
      ("HTTP 500".toList : List Char) ≠ [] := by
  constructor
  · show (if false = true then _ else _) = _
    rw [if_neg (by simp)]
    simp only [Except.error.injEq]
    show errorMessageText 500 (some (.jstr [])) = _
    rw [errorMessageText]
    rw [if_neg (by simp [truthy])]
    decide
  · decide

/-- C8 amended: every failed request is reported as a structured error and
no result; the message is the parsed body's message field when that field is
present and truthy, `Unknown error` when the body is not parseable JSON, and
`HTTP <status>` when the message field is absent or falsy (empty string, 0,
false, null). -/
theorem apiErrorsStructured (resp : HttpResponse) (payload : JsValue)
    (h : resp.ok = false) :
    apiConvert resp payload = .error (errorMessageText resp.status resp.parsedMessage) ∧
      (resp.parsedMessage = none →
        errorMessageText resp.status resp.parsedMessage = "Unknown error".toList) ∧
      (∀ v, resp.parsedMessage = some v → truthy v = true →
        errorMessageText resp.status resp.parsedMessage = jsString v) ∧
      (∀ v, resp.parsedMessage = some v → truthy v = false →
        errorMessageText resp.status resp.parsedMessage =
          "HTTP ".toList ++ natDigits resp.status) := by
  refine ⟨by simp [apiConvert, h], ?_, ?_, ?_⟩
  · intro hn
    rw [errorMessageText, hn]
    simp [truthy, jsString]
  · intro v hv ht
    rw [errorMessageText, hv]
    simp [ht]
  · intro v hv ht
    rw [errorMessageText, hv]
    simp [ht]

theorem apiErrorsStructured_witness :
    apiConvert ⟨false, 404, none⟩ .jnull =
        .error (errorMessageText 404 none) ∧
      ((none : Option JsValue) = none →
        errorMessageText 404 none = "Unknown error".toList) ∧
      (∀ v, (none : Option JsValue) = some v → truthy v = true →
        errorMessageText 404 none = jsString v) ∧
      (∀ v, (none : Option JsValue) = some v → truthy v = false →
        errorMessageText 404 none = "HTTP ".toList ++ natDigits 404) :=
  apiErrorsStructured ⟨false, 404, none⟩ .jnull rfl

theorem matchesAt_subset {pat s : List Char} (h : matchesAt pat s = true) :
    ∀ c ∈ pat, c ∈ s := by
  induction pat generalizing s with
  | nil => simp
  | cons p ps ih =>
      cases s with
      | nil => simp [matchesAt] at h
      | cons c cs =>
          rw [matchesAt, Bool.and_eq_true, decide_eq_true_eq] at h
          intro x hx
          rcases List.mem_cons.mp hx with rfl | hx
          · simp [h.1]
          · exact List.mem_cons_of_mem _ (ih h.2 x hx)

theorem replaceFirstSub_of_disjoint {pat rep h : List Char}
    (hpat : '_' ∈ pat) (hs : ∀ c ∈ h, c ≠ '_') :
    replaceFirstSub pat rep h = h := by
  induction h with
  | nil =>
      rw [replaceFirstSub]
      rw [if_neg]
      intro he
      rw [List.isEmpty_iff] at he
      subst he
      simp at hpat
  | cons c rest ih =>
      rw [replaceFirstSub]
      rw [if_neg]
      · rw [ih fun x hx => hs x (List.mem_cons_of_mem _ hx)]
      · intro hm
        exact hs '_' (matchesAt_subset hm _ hpat) rfl

/-- C9: because the global underscore-to-space replacement runs first, the
second replacement's underscore-containing pattern can never match, so
`formatIssue` is exactly underscore-to-space — no issue is ever rendered
with the intended `Missing data in columns: ` prefix. -/
theorem formatIssueOnlyReplacesUnderscores (issue : List Char) :
    formatIssue issue = replaceAllChar '_' ' ' issue := by
  unfold formatIssue
  refine replaceFirstSub_of_disjoint (by decide) ?_
  intro c hc
  unfold replaceAllChar at hc
  obtain ⟨x, _, rfl⟩ := List.mem_map.mp hc
  by_cases hx : x = '_'
  · simp [hx]
  · simp [hx]

/-- C10: `FileValidators.isExcelFile` accepts exactly the files whose
declared MIME type is one of the three spreadsheet types or whose name ends
case-insensitively in `.xlsx`, `.xls` or `.csv`; an accepted extension
suffices whatever the MIME type; and the upload handler's inline validation
is the same predicate. -/
theorem isExcelFileCharacterization (f : UploadFile) :
    (isExcelFile f = claimAccepts f) ∧
      (handleFileSelectAccepts f = isExcelFile f) ∧
      (excelNameRegex f.name = true → isExcelFile f = true) := by
  refine ⟨?_, ?_, ?_⟩
  · unfold isExcelFile claimAccepts excelNameRegex
    cases decide (f.mimeType ∈ excelMimeTypes) <;>
      cases hasSuffix ".xls".toList (lowerChars f.name) <;>
        cases hasSuffix ".xlsx".toList (lowerChars f.name) <;>
          cases hasSuffix ".csv".toList (lowerChars f.name) <;> rfl
  · unfold handleFileSelectAccepts isExcelFile
    cases decide (f.mimeType ∈ excelMimeTypes) <;> cases excelNameRegex f.name <;> rfl
  · intro h
    unfold isExcelFile
    rw [h]
    simp

theorem mem_le_maxLen {used : List (List Char)} {u : List Char} (h : u ∈ used) :
    u.length ≤ maxLen used := by
  induction used with
  | nil => simp at h
  | cons x xs ih =>
      rcases List.mem_cons.mp h with rfl | h
      · exact le_max_left _ _
      · exact le_trans (ih h) (le_max_right _ _)

theorem freshName_not_mem (used : List (List Char)) (base : List Char) :
    freshName used base ∉ used := by
  unfold freshName
  split
  · intro hmem
    have hlen := mem_le_maxLen hmem
    rw [List.length_append, List.length_replicate] at hlen
    omega
  · assumption

theorem dedupNames_avoids :
    ∀ (l used : List (List Char)), ∀ s ∈ dedupNames used l, s ∉ used := by
  intro l
  induction l with
  | nil => intro used s hs; simp [dedupNames] at hs
  | cons n rest ih =>
      intro used s hs
      rw [dedupNames] at hs
      rcases List.mem_cons.mp hs with rfl | hs
      · exact freshName_not_mem used n
      · intro hmem
        exact ih (freshName used n :: used) s hs (List.mem_cons_of_mem _ hmem)

theorem dedupNames_nodup :
    ∀ (l used : List (List Char)), (dedupNames used l).Nodup := by
  intro l
  induction l with
  | nil => intro used; simp [dedupNames]
  | cons n rest ih =>
      intro used
      rw [dedupNames]
      refine List.nodup_cons.mpr ⟨?_, ih _⟩
      intro hmem
      exact dedupNames_avoids rest (freshName used n :: used) _ hmem (by simp)

theorem dedupNames_preserve {P : List Char → Prop}
    (hP : ∀ used base, P base → P (freshName used base)) :
    ∀ (l used : List (List Char)), (∀ n ∈ l, P n) → ∀ s ∈ dedupNames used l, P s := by
  intro l
  induction l with
  | nil => intro used _ s hs; simp [dedupNames] at hs
  | cons n rest ih =>
      intro used hl s hs
      rw [dedupNames] at hs
      rcases List.mem_cons.mp hs with rfl | hs
      · exact hP used n (hl n (by simp))
      · exact ih _ (fun x hx => hl x (List.mem_cons_of_mem _ hx)) s hs

theorem isWordChar_of_identFirst {c : Char} (h : isIdentFirstChar c = true) :
    isWordChar c = true := by
  unfold isIdentFirstChar at h
  unfold isWordChar
  rcases Bool.or_eq_true_iff.mp h with h | h
  · simp [h]
  · simp [h]

theorem sanitizeBase_matchesRegex {n : List Char} (h : n.filter isWordChar ≠ []) :
    matchesIdentRegex (sanitizeBase n) = true := by
  unfold sanitizeBase
  set stripped := n.filter isWordChar with hstr
  have hall : ∀ x ∈ stripped, isWordChar x = true := by
    intro x hx
    exact List.of_mem_filter hx
  cases hs : stripped with
  | nil => exact absurd hs h
  | cons c rest =>
      have hcword : isWordChar c = true := hall c (by rw [hs]; simp)
      have hfirst : ∀ c0 t0, isIdentFirstChar c0 = true →
          (∀ x ∈ t0, isWordChar x = true) →
          matchesIdentRegex ((c0 :: t0).take 63) = true := by
        intro c0 t0 h1 h2
        rw [List.take_succ_cons, matchesIdentRegex]
        refine Bool.and_eq_true_iff.mpr ⟨Bool.and_eq_true_iff.mpr ⟨h1, ?_⟩, ?_⟩
        · rw [List.all_eq_true]
          intro x hx
          exact h2 x (List.take_subset _ _ hx)
        · rw [decide_eq_true_eq]
          have := List.length_take_le 62 t0
          omega
      show matchesIdentRegex
        ((if c.isDigit = true then '_' :: (c :: rest) else c :: rest).take 63) = true
      by_cases hdig : c.isDigit = true
      · rw [if_pos hdig]
        refine hfirst '_' (c :: rest) (by decide) ?_
        intro x hx
        rw [← hs] at hx
        exact hall x hx
      · rw [if_neg hdig]
        refine hfirst c rest ?_ ?_
        · unfold isWordChar at hcword
          unfold isIdentFirstChar
          rcases Bool.or_eq_true_iff.mp hcword with h1 | h1
          · rcases Bool.or_eq_true_iff.mp h1 with h2 | h2
            · simp [h2]
            · exact absurd h2 hdig
          · simp [h1]
        · intro x hx
          exact hall x (by rw [hs]; exact List.mem_cons_of_mem _ hx)

theorem freshName_preservesShape (used : List (List Char)) (base : List Char)
    (h : base ≠ [] ∧ isIdentFirstChar base.headI = true ∧ base.all isWordChar = true) :
    freshName used base ≠ [] ∧ isIdentFirstChar (freshName used base).headI = true ∧
      (freshName used base).all isWordChar = true := by
  obtain ⟨h1, h2, h3⟩ := h
  unfold freshName
  split
  · cases base with
    | nil => exact absurd rfl h1
    | cons b t =>
        refine ⟨by simp, by simpa using h2, ?_⟩
        rw [List.all_eq_true]
        intro x hx
        rcases List.mem_append.mp hx with hx | hx
        · exact (List.all_eq_true.mp h3) x hx
        · rw [List.eq_of_mem_replicate hx]
          decide
  · exact ⟨h1, h2, h3⟩

/-- C7 counterexample: a source column name with no `[A-Za-z0-9_]` character
at all sanitizes to the empty identifier, which does not match
`[A-Za-z_][A-Za-z0-9_]{0,62}`. -/
theorem emptySanitizedIdentifier :
    emitIdentifiers [['!']] = [[]] ∧ matchesIdentRegex [] = false := by
  constructor <;> decide

/-- C7 amended: for source names containing at least one `[A-Za-z0-9_]`
character, each sanitized base name matches `[A-Za-z_][A-Za-z0-9_]{0,62}`,
every emitted identifier (a base, possibly with a de-duplication suffix that
may exceed the 63-character budget) is nonempty, starts with `[A-Za-z_]` and
contains only `[A-Za-z0-9_]`, and the emitted identifiers are pairwise
distinct. -/
theorem sqlIdentifiersWellFormed (names : List (List Char))
    (h : ∀ n ∈ names, n.filter isWordChar ≠ []) :
    (emitIdentifiers names).Nodup ∧
      (∀ n ∈ names, matchesIdentRegex (sanitizeBase n) = true) ∧
      (∀ s ∈ emitIdentifiers names,
        s ≠ [] ∧ isIdentFirstChar s.headI = true ∧ s.all isWordChar = true) := by
  refine ⟨dedupNames_nodup _ _, fun n hn => sanitizeBase_matchesRegex (h n hn), ?_⟩
  refine dedupNames_preserve freshName_preservesShape _ _ ?_
  intro b hb
  obtain ⟨n, hn, rfl⟩ := List.mem_map.mp hb
  have hm := sanitizeBase_matchesRegex (h n hn)
  cases hsb : sanitizeBase n with
  | nil => rw [hsb] at hm; exact absurd hm (by decide)
  | cons c rest =>
      rw [hsb, matchesIdentRegex] at hm
      rw [Bool.and_eq_true_iff] at hm
      obtain ⟨hm1, _⟩ := hm
      rw [Bool.and_eq_true_iff] at hm1
      refine ⟨by simp, by simpa using hm1.1, ?_⟩
      rw [List.all_eq_true]
      intro x hx
      rcases List.mem_cons.mp hx with rfl | hx
      · exact isWordChar_of_identFirst hm1.1
      · exact (List.all_eq_true.mp hm1.2) x hx

theorem sqlIdentifiersWellFormed_witness :
    (emitIdentifiers [['a'], ['a']]).Nodup ∧
      (∀ n ∈ [['a'], ['a']], matchesIdentRegex (sanitizeBase n) = true) ∧
      (∀ s ∈ emitIdentifiers [['a'], ['a']],
        s ≠ [] ∧ isIdentFirstChar s.headI = true ∧ s.all isWordChar = true) :=
  sqlIdentifiersWellFormed [['a'], ['a']] (by decide)

theorem digitChar_isDigit (n : ℕ) : (digitChar n).isDigit = true := by
  unfold digitChar
  split <;> decide

theorem isDigit_ne_dash {c : Char} (h : c.isDigit = true) : c ≠ '-' := by
  intro hc
  rw [hc] at h
  exact absurd h (by decide)

theorem isDigit_ne_dot {c : Char} (h : c.isDigit = true) : c ≠ '.' := by
  intro hc
  rw [hc] at h
  exact absurd h (by decide)

theorem isDigit_ne_at {c : Char} (h : c.isDigit = true) : c ≠ '@' := by
  intro hc
  rw [hc] at h
  exact absurd h (by decide)

theorem natDigitsF_all (fuel n : ℕ) : (natDigitsF fuel n).all Char.isDigit = true := by
  induction fuel generalizing n with
  | zero => rfl
  | succ fuel ih =>
      rw [natDigitsF]
      split
      · simp [digitChar_isDigit]
      · rw [List.all_append]
        simp [ih, digitChar_isDigit]

theorem natDigitsF_ne_nil (fuel n : ℕ) : natDigitsF fuel n ≠ [] := by
  cases fuel with
  | zero => simp [natDigitsF]
  | succ fuel =>
      rw [natDigitsF]
      split
      · simp
      · simp

theorem natDigits_all (n : ℕ) : (natDigits n).all Char.isDigit = true :=
  natDigitsF_all _ _

theorem natDigits_ne_nil (n : ℕ) : natDigits n ≠ [] :=
  natDigitsF_ne_nil _ _

theorem all_dropWhile_nil {p : Char → Bool} {l : List Char}
    (h : l.all p = true) : l.dropWhile p = [] := by
  induction l with
  | nil => rfl
  | cons x xs ih =>
      rw [List.all_cons, Bool.and_eq_true] at h
      rw [List.dropWhile_cons, if_pos h.1]
      exact ih h.2

theorem dropWhile_nil_all {p : Char → Bool} {l : List Char}
    (h : l.dropWhile p = []) : l.all p = true := by
  induction l with
  | nil => rfl
  | cons x xs ih =>
      rw [List.dropWhile_cons] at h
      by_cases hx : p x = true
      · rw [if_pos hx] at h
        rw [List.all_cons, Bool.and_eq_true]
        exact ⟨hx, ih h⟩
      · rw [if_neg hx] at h
        exact absurd h (by simp)

theorem dropWhile_append_all {p : Char → Bool} {l1 : List Char} {x : Char}
    (l2 : List Char) (h1 : l1.all p = true) (hx : p x = false) :
    (l1 ++ x :: l2).dropWhile p = x :: l2 := by
  induction l1 with
  | nil => simp [List.dropWhile_cons, hx]
  | cons y ys ih =>
      rw [List.all_cons, Bool.and_eq_true] at h1
      rw [List.cons_append, List.dropWhile_cons, if_pos h1.1]
      exact ih h1.2

theorem takeWhile_append_all {p : Char → Bool} {l1 : List Char} {x : Char}
    (l2 : List Char) (h1 : l1.all p = true) (hx : p x = false) :
    (l1 ++ x :: l2).takeWhile p = l1 := by
  induction l1 with
  | nil => simp [List.takeWhile_cons, hx]
  | cons y ys ih =>
      rw [List.all_cons, Bool.and_eq_true] at h1
      rw [List.cons_append, List.takeWhile_cons, if_pos h1.1]
      rw [ih h1.2]

theorem all_takeWhile (p : Char → Bool) (l : List Char) :
    (l.takeWhile p).all p = true := by
  induction l with
  | nil => rfl
  | cons x xs ih =>
      rw [List.takeWhile_cons]
      by_cases hx : p x = true
      · rw [if_pos hx, List.all_cons, Bool.and_eq_true]
        exact ⟨hx, ih⟩
      · rw [if_neg hx]
        rfl

theorem isEmailString_of_no_at {s : List Char} (h : ∀ c ∈ s, c ≠ '@') :
    isEmailString s = false := by
  unfold isEmailString
  have hall : s.all (fun c => !(c = '@' : Bool)) = true := by
    rw [List.all_eq_true]
    intro x hx
    simp [h x hx]
  rw [all_dropWhile_nil hall]

theorem boolString_profile {s : List Char} (h : isBoolString s = true) :
    isIntString s = false ∧ isNumericString s = false ∧
      isDatetimeString s = false ∧ isEmailString s = false := by
  rw [isBoolString, decide_eq_true_eq] at h
  simp only [boolStrings, List.mem_cons, List.not_mem_nil, or_false] at h
  rcases h with rfl | rfl | rfl | rfl | rfl | rfl <;> exact ⟨rfl, rfl, rfl, rfl⟩

theorem unsigned_of_digits {t : List Char} (h1 : t ≠ [])
    (h2 : t.all Char.isDigit = true) : isUnsignedNumeric t = true := by
  unfold isUnsignedNumeric
  rw [all_dropWhile_nil h2]
  cases t with
  | nil => exact absurd rfl h1
  | cons x xs => rfl

theorem int_imp_numeric {s : List Char} (h : isIntString s = true) :
    isNumericString s = true := by
  cases s with
  | nil => cases h
  | cons c rest =>
      simp only [isIntString] at h
      simp only [isNumericString, stripSign]
      by_cases hc : c = '-'
      · rw [if_pos hc] at h ⊢
        rw [Bool.and_eq_true] at h
        refine unsigned_of_digits ?_ h.2
        intro hrest
        rw [hrest] at h
        exact absurd h.1 (by decide)
      · rw [if_neg hc] at h ⊢
        exact unsigned_of_digits (by simp) h

theorem unsigned_chars {t : List Char} (h : isUnsignedNumeric t = true) :
    ∀ c ∈ t, c.isDigit = true ∨ c = '-' ∨ c = '.' := by
  unfold isUnsignedNumeric at h
  intro c hc
  split at h
  · rename_i hdrop
    left
    exact List.all_eq_true.mp (dropWhile_nil_all hdrop) c hc
  · rename_i x fr hdrop
    rw [Bool.and_eq_true, Bool.and_eq_true, Bool.and_eq_true, decide_eq_true_eq] at h
    obtain ⟨⟨⟨hx, _⟩, _⟩, hfr⟩ := h
    have hsplit : t.takeWhile Char.isDigit ++ t.dropWhile Char.isDigit = t :=
      List.takeWhile_append_dropWhile Char.isDigit t
    rw [← hsplit] at hc
    rcases List.mem_append.mp hc with hc | hc
    · left
      exact List.all_eq_true.mp (all_takeWhile _ _) c hc
    · rw [hdrop] at hc
      rcases List.mem_cons.mp hc with rfl | hc
      · right; right; exact hx
      · left
        exact List.all_eq_true.mp hfr c hc

theorem numeric_chars {s : List Char} (h : isNumericString s = true) :
    ∀ c ∈ s, c.isDigit = true ∨ c = '-' ∨ c = '.' := by
  intro c hc
  cases s with
  | nil => simp at hc
  | cons x rest =>
      simp only [isNumericString, stripSign] at h
      by_cases hx : x = '-'
      · rw [if_pos hx] at h
        rcases List.mem_cons.mp hc with rfl | hc
        · right; left; exact hx
        · exact unsigned_chars h c hc
      · rw [if_neg hx] at h
        exact unsigned_chars h c hc

theorem not_email_of_numeric {s : List Char} (h : isNumericString s = true) :
    isEmailString s = false := by
  refine isEmailString_of_no_at ?_
  intro c hc
  rcases numeric_chars h c hc with hd | rfl | rfl
  · exact isDigit_ne_at hd
  · decide
  · decide

theorem not_bool_of_numeric {s : List Char} (h : isNumericString s = true) :
    isBoolString s = false := by
  rcases Bool.eq_false_or_eq_true (isBoolString s) with h0 | h0
  · have := (boolString_profile h0).2.1
    rw [h] at this
    cases this
  · exact h0

theorem datetime_profile {s : List Char} (h : isDatetimeString s = true) :
    isBoolString s = false ∧ isIntString s = false ∧
      isNumericString s = false ∧ isEmailString s = false := by
  unfold isDatetimeString at h
  split at h
  · rename_i a b c d e f g h8
    simp only [List.all_cons, List.all_nil, Bool.and_eq_true, Bool.and_true] at h
    obtain ⟨ha, hb, hc, hd, he, hf, hg, hh⟩ := h
    have hdashA : a ≠ '-' := isDigit_ne_dash ha
    have hdd : ('-').isDigit = false := by decide
    refine ⟨?_, ?_, ?_, ?_⟩
    · rcases Bool.eq_false_or_eq_true
        (isBoolString [a, b, c, d, '-', e, f, '-', g, h8]) with h0 | h0
      · rw [isBoolString, decide_eq_true_eq] at h0
        simp only [boolStrings, List.mem_cons, List.not_mem_nil, or_false] at h0
        rcases h0 with h0 | h0 | h0 | h0 | h0 | h0 <;> simp at h0
      · exact h0
    · simp only [isIntString]
      rw [if_neg hdashA]
      simp [ha, hb, hc, hd, hdd]
    · simp only [isNumericString, stripSign]
      rw [if_neg hdashA]
      unfold isUnsignedNumeric
      rw [List.dropWhile_cons, if_pos ha, List.dropWhile_cons, if_pos hb,
        List.dropWhile_cons, if_pos hc, List.dropWhile_cons, if_pos hd,
        List.dropWhile_cons, if_neg (by simp [hdd])]
      simp
    · refine isEmailString_of_no_at ?_
      intro x hx
      simp only [List.mem_cons, List.not_mem_nil, or_false] at hx
      rcases hx with rfl | rfl | rfl | rfl | rfl | rfl | rfl | rfl | rfl | rfl
      · exact isDigit_ne_at ha
      · exact isDigit_ne_at hb
      · exact isDigit_ne_at hc
      · exact isDigit_ne_at hd
      · decide
      · exact isDigit_ne_at he
      · exact isDigit_ne_at hf
      · decide
      · exact isDigit_ne_at hg
      · exact isDigit_ne_at hh
  · cases h

theorem not_datetime_of_numeric {s : List Char} (h : isNumericString s = true) :
    isDatetimeString s = false := by
  rcases Bool.eq_false_or_eq_true (isDatetimeString s) with h0 | h0
  · have := (datetime_profile h0).2.2.1
    rw [h] at this
    cases this
  · exact h0

theorem not_bool_of_int {s : List Char} (h : isIntString s = true) :
    isBoolString s = false :=
  not_bool_of_numeric (int_imp_numeric h)

theorem not_datetime_of_int {s : List Char} (h : isIntString s = true) :
    isDatetimeString s = false :=
  not_datetime_of_numeric (int_imp_numeric h)

theorem not_email_of_int {s : List Char} (h : isIntString s = true) :
    isEmailString s = false :=
  not_email_of_numeric (int_imp_numeric h)

theorem renderInt_isInt (n : ℤ) : isIntString (renderInt n) = true := by
  unfold renderInt
  split
  · rw [isIntString, if_pos rfl, Bool.and_eq_true]
    constructor
    · cases hnd : natDigits n.natAbs with
      | nil => exact absurd hnd (natDigits_ne_nil _)
      | cons x xs => rfl
    · exact natDigits_all _
  · cases hnd : natDigits n.toNat with
    | nil => exact absurd hnd (natDigits_ne_nil _)
    | cons x xs =>
        have hall : (x :: xs).all Char.isDigit = true := by
          rw [← hnd]
          exact natDigits_all _
        rw [isIntString, if_neg]
        · exact hall
        · refine isDigit_ne_dash ?_
          rw [List.all_cons, Bool.and_eq_true] at hall
          exact hall.1

theorem natDigits_isEmpty (n : ℕ) : (natDigits n).isEmpty = false := by
  cases hnd : natDigits n with
  | nil => exact absurd hnd (natDigits_ne_nil _)
  | cons x xs => rfl

theorem all_digit_false_of_mem {l : List Char} {c : Char} (hc : c ∈ l)
    (hcd : c.isDigit = false) : l.all Char.isDigit = false := by
  rcases Bool.eq_false_or_eq_true (l.all Char.isDigit) with h0 | h0
  · have := List.all_eq_true.mp h0 c hc
    rw [hcd] at this
    cases this
  · exact h0

theorem renderFloat_isNumeric (q : ℚ) : isNumericString (renderFloat q) = true := by
  unfold renderFloat
  have hdot : ('.' : Char).isDigit = false := by decide
  split
  · simp only [List.cons_append, List.nil_append]
    rw [isNumericString]
    simp only [stripSign, if_true]
    rw [isUnsignedNumeric]
    rw [dropWhile_append_all _ (natDigits_all _) hdot,
      takeWhile_append_all _ (natDigits_all _) hdot]
    simp [natDigits_isEmpty, natDigits_all]
  · simp only [List.nil_append]
    cases hnd : natDigits q.num.natAbs with
    | nil => exact absurd hnd (natDigits_ne_nil _)
    | cons x xs =>
        have hall : (x :: xs).all Char.isDigit = true := by
          rw [← hnd]
          exact natDigits_all _
        have hx : x.isDigit = true := by
          rw [List.all_cons, Bool.and_eq_true] at hall
          exact hall.1
        simp only [List.cons_append]
        rw [isNumericString]
        simp only [stripSign]
        rw [if_neg (isDigit_ne_dash hx)]
        rw [isUnsignedNumeric]
        rw [← List.cons_append]
        rw [dropWhile_append_all _ hall hdot, takeWhile_append_all _ hall hdot]
        simp [natDigits_isEmpty, natDigits_all]

theorem renderFloat_not_int (q : ℚ) : isIntString (renderFloat q) = false := by
  unfold renderFloat
  have hdot : ('.' : Char).isDigit = false := by decide
  have hmem : ('.' : Char) ∈ natDigits q.num.natAbs ++ '.' :: natDigits q.den :=
    List.mem_append_right _ (List.mem_cons_self _ _)
  split
  · simp only [List.cons_append, List.nil_append]
    rw [isIntString, if_pos rfl]
    rw [all_digit_false_of_mem hmem hdot]
    simp
  · simp only [List.nil_append]
    cases hnd : natDigits q.num.natAbs with
    | nil => exact absurd hnd (natDigits_ne_nil _)
    | cons x xs =>
        have hall : (x :: xs).all Char.isDigit = true := by
          rw [← hnd]
          exact natDigits_all _
        have hx : x.isDigit = true := by
          rw [List.all_cons, Bool.and_eq_true] at hall
          exact hall.1
        simp only [List.cons_append]
        rw [isIntString, if_neg (isDigit_ne_dash hx)]
        refine all_digit_false_of_mem ?_ hdot
        exact List.mem_cons_of_mem _ (List.mem_append_right _ (List.mem_cons_self _ _))

theorem isoDate_isDatetime (y m d : ℕ) : isDatetimeString (isoDate y m d) = true := by
  show ([digitChar (y / 1000), digitChar (y / 100), digitChar (y / 10), digitChar y,
      digitChar (m / 10), digitChar m, digitChar (d / 10), digitChar d].all Char.isDigit) = true
  simp [digitChar_isDigit]

theorem parseDatetimeString_datetime {s : List Char} (h : isDatetimeString s = true) :
    ∃ y m d, parseDatetimeString s = .datetime y m d := by
  unfold isDatetimeString at h
  split at h
  · exact ⟨_, _, _, rfl⟩
  · cases h

theorem parseDatetimeString_ne_null (s : List Char) :
    parseDatetimeString s ≠ Value.null := by
  unfold parseDatetimeString
  split <;> simp

theorem renderToText_pred (t' : ColType) (v : Value) :
    predFor t' (renderToText v) = predFor t' v := by
  cases v with
  | int n =>
      have hi := renderInt_isInt n
      have hnum := int_imp_numeric hi
      have hb := not_bool_of_int hi
      have hd := not_datetime_of_int hi
      have he := not_email_of_int hi
      cases t' <;> simp [renderToText, predFor, hi, hnum, hb, hd, he]
  | float q =>
      have hnum := renderFloat_isNumeric q
      have hi := renderFloat_not_int q
      have hb := not_bool_of_numeric hnum
      have hd := not_datetime_of_numeric hnum
      have he := not_email_of_numeric hnum
      cases t' <;> simp [renderToText, predFor, hi, hnum, hb, hd, he]
  | bool b => cases b <;> cases t' <;> decide
  | datetime y m d =>
      have hdt := isoDate_isDatetime y m d
      have hp := datetime_profile hdt
      cases t' <;>
        simp [renderToText, predFor, hdt, hp.1, hp.2.1, hp.2.2.1, hp.2.2.2]
  | text s => rfl
  | null => rfl

theorem coerceValue_pred (t t' : ColType) (v : Value) :
    predFor t' (coerceValue t v) = predFor t' v := by
  cases t with
  | email => rfl
  | text => exact renderToText_pred t' v
  | unknown => exact renderToText_pred t' v
  | boolean =>
      cases v with
      | text s =>
          by_cases hg : isBoolString s = true
          · have hp := boolString_profile hg
            simp only [coerceValue, predFor]
            rw [if_pos hg]
            cases t' <;> simp [predFor, hg, hp.1, hp.2.1, hp.2.2.1, hp.2.2.2]
          · simp only [coerceValue, predFor]
            rw [if_neg hg]
      | int n => rfl
      | float q => rfl
      | bool b => rfl
      | datetime y m d => rfl
      | null => rfl
  | integer =>
      cases v with
      | text s =>
          by_cases hg : isIntString s = true
          · have hnum := int_imp_numeric hg
            have hb := not_bool_of_int hg
            have hd := not_datetime_of_int hg
            have he := not_email_of_int hg
            simp only [coerceValue, predFor]
            rw [if_pos hg]
            cases t' <;> simp [predFor, hg, hnum, hb, hd, he]
          · simp only [coerceValue, predFor]
            rw [if_neg hg]
      | int n => rfl
      | float q => rfl
      | bool b => rfl
      | datetime y m d => rfl
      | null => rfl
  | numeric =>
      cases v with
      | text s =>
          by_cases hg : isNumericString s = true
          · have hb := not_bool_of_numeric hg
            have hd := not_datetime_of_numeric hg
            have he := not_email_of_numeric hg
            simp only [coerceValue, predFor]
            rw [if_pos hg]
            by_cases hint : isIntString s = true
            · rw [if_pos hint]
              cases t' <;> simp [predFor, hg, hint, hb, hd, he]
            · rw [if_neg hint]
              have hint2 : isIntString s = false := by
                rcases Bool.eq_false_or_eq_true (isIntString s) with h0 | h0
                · exact absurd h0 hint
                · exact h0
              cases t' <;> simp [predFor, hg, hint2, hb, hd, he]
          · simp only [coerceValue, predFor]
            rw [if_neg hg]
      | int n => rfl
      | float q => rfl
      | bool b => rfl
      | datetime y m d => rfl
      | null => rfl
  | datetime =>
      cases v with
      | text s =>
          by_cases hg : isDatetimeString s = true
          · have hp := datetime_profile hg
            obtain ⟨y0, m0, d0, heq⟩ := parseDatetimeString_datetime hg
            simp only [coerceValue, predFor]
            rw [if_pos hg, heq]
            cases t' <;> simp [predFor, hg, hp.1, hp.2.1, hp.2.2.1, hp.2.2.2]
          · simp only [coerceValue, predFor]
            rw [if_neg hg]
      | int n => rfl
      | float q => rfl
      | bool b => rfl
      | datetime y m d => rfl
      | null => rfl

theorem coerceValue_ne_null (t : ColType) {v : Value} (h : v ≠ Value.null) :
    coerceValue t v ≠ Value.null := by
  cases t with
  | email => exact h
  | text =>
      cases v with
      | null => exact absurd rfl h
      | bool b => cases b <;> simp [coerceValue, renderToText]
      | int n => simp [coerceValue, renderToText]
      | float q => simp [coerceValue, renderToText]
      | datetime y m d => simp [coerceValue, renderToText]
      | text s => simp [coerceValue, renderToText]
  | unknown =>
      cases v with
      | null => exact absurd rfl h
      | bool b => cases b <;> simp [coerceValue, renderToText]
      | int n => simp [coerceValue, renderToText]
      | float q => simp [coerceValue, renderToText]
      | datetime y m d => simp [coerceValue, renderToText]
      | text s => simp [coerceValue, renderToText]
  | boolean =>
      cases v with
      | text s =>
          by_cases hg : isBoolString s = true
          · simp only [coerceValue, predFor]
            rw [if_pos hg]
            simp
          · simp only [coerceValue, predFor]
            rw [if_neg hg]
            exact h
      | null => exact absurd rfl h
      | int n => exact h
      | float q => exact h
      | bool b => exact h
      | datetime y m d => exact h
  | integer =>
      cases v with
      | text s =>
          by_cases hg : isIntString s = true
          · simp only [coerceValue, predFor]
            rw [if_pos hg]
            simp
          · simp only [coerceValue, predFor]
            rw [if_neg hg]
            exact h
      | null => exact absurd rfl h
      | int n => exact h
      | float q => exact h
      | bool b => exact h
      | datetime y m d => exact h
  | numeric =>
      cases v with
      | text s =>
          by_cases hg : isNumericString s = true
          · simp only [coerceValue, predFor]
            rw [if_pos hg]
            by_cases hint : isIntString s = true
            · rw [if_pos hint]
              simp
            · rw [if_neg hint]
              simp
          · simp only [coerceValue, predFor]
            rw [if_neg hg]
            exact h
      | null => exact absurd rfl h
      | int n => exact h
      | float q => exact h
      | bool b => exact h
      | datetime y m d => exact h
  | datetime =>
      cases v with
      | text s =>
          by_cases hg : isDatetimeString s = true
          · simp only [coerceValue, predFor]
            rw [if_pos hg]
            exact parseDatetimeString_ne_null s
          · simp only [coerceValue, predFor]
            rw [if_neg hg]
            exact h
      | null => exact absurd rfl h
      | int n => exact h
      | float q => exact h
      | bool b => exact h
      | datetime y m d => exact h

theorem coerceCell_pred (t t' : ColType) (v : Value) :
    predFor t' (coerceCell t v) = predFor t' v := by
  cases v with
  | null => rfl
  | int n => exact coerceValue_pred t t' _
  | float q => exact coerceValue_pred t t' _
  | bool b => exact coerceValue_pred t t' _
  | datetime y m d => exact coerceValue_pred t t' _
  | text s => exact coerceValue_pred t t' _

theorem coerceCell_null_iff (t : ColType) (v : Value) :
    (coerceCell t v = Value.null) = (v = Value.null) := by
  by_cases hv : v = Value.null
  · subst hv
    simp [coerceCell]
  · simp only [hv]
    have hne : coerceCell t v ≠ Value.null := by
      cases v with
      | null => exact absurd rfl hv
      | int n => exact coerceValue_ne_null t hv
      | float q => exact coerceValue_ne_null t hv
      | bool b => exact coerceValue_ne_null t hv
      | datetime y m d => exact coerceValue_ne_null t hv
      | text s => exact coerceValue_ne_null t hv
    simp [hne]

theorem filter_map_comm (t : ColType) (l : List Value) :
    (l.map (coerceCell t)).filter (fun v => !decide (v = Value.null)) =
      (l.filter (fun v => !decide (v = Value.null))).map (coerceCell t) := by
  induction l with
  | nil => rfl
  | cons x xs ih =>
      rw [List.map_cons, List.filter_cons, List.filter_cons]
      have hx : (!decide (coerceCell t x = Value.null)) = (!decide (x = Value.null)) := by
        simp only [coerceCell_null_iff]
      rw [hx]
      by_cases h : (!decide (x = Value.null)) = true
      · rw [if_pos h, if_pos h, List.map_cons, ih]
      · rw [if_neg h, if_neg h, ih]

theorem countP_map_pred (p : Value → Bool) (f : Value → Value)
    (hf : ∀ v, p (f v) = p v) (l : List Value) :
    (l.map f).countP p = l.countP p := by
  induction l with
  | nil => rfl
  | cons x xs ih => rw [List.map_cons, List.countP_cons, List.countP_cons, hf, ih]

theorem sampleOf_map (t : ColType) (l : List Value) :
    sampleOf (l.map (coerceCell t)) = (sampleOf l).map (coerceCell t) := by
  unfold sampleOf
  rw [filter_map_comm, ← List.map_take]

theorem predRatio_map (t t' : ColType) (l : List Value) :
    predRatio (predFor t') (l.map (coerceCell t)) = predRatio (predFor t') l := by
  unfold predRatio
  rw [countP_map_pred _ _ (coerceCell_pred t t'), List.length_map]

theorem winningType_map (t : ColType) (l : List Value) :
    winningType (l.map (coerceCell t)) = winningType l := by
  unfold winningType
  have h : ∀ t', predRatio (predFor t') (l.map (coerceCell t)) = predRatio (predFor t') l :=
    fun t' => predRatio_map t t' l
  simp only [h]

theorem matchRatioOf_map (t : ColType) (l : List Value) :
    matchRatioOf (l.map (coerceCell t)) = matchRatioOf l := by
  unfold matchRatioOf
  rw [winningType_map]
  have h : ∀ t', predRatio (predFor t') (l.map (coerceCell t)) = predRatio (predFor t') l :=
    fun t' => predRatio_map t t' l
  cases winningType l with
  | some t'' => simp only [h]
  | none => simp only [h]

theorem analyzeColumn_of_map {d2 d1 : Dataset} {c : List Char} {t : ColType}
    (h : columnValues d2 c = (columnValues d1 c).map (coerceCell t)) :
    analyzeColumn d2 c = analyzeColumn d1 c := by
  unfold analyzeColumn
  rw [h, sampleOf_map, winningType_map, matchRatioOf_map, List.length_map,
    countP_map_pred _ _ (fun v => by simp only [coerceCell_null_iff]),
    List.length_map]

theorem cellOf_map_self {cols : List (List Char)} {c : List Char}
    (f : List Char → Value) (hc : c ∈ cols) :
    cellOf (cols.map (fun c' => (c', f c'))) c = f c := by
  induction cols with
  | nil => simp at hc
  | cons k ks ih =>
      rw [List.map_cons]
      simp only [cellOf]
      by_cases hk : k = c
      · rw [if_pos hk, hk]
      · rw [if_neg hk]
        refine ih ?_
        rcases List.mem_cons.mp hc with rfl | h
        · exact absurd rfl hk
        · exact h

theorem columnValues_roundtrip (D : Dataset) (ds : List ColumnDescriptor)
    {c : List Char} (hc : c ∈ D.columns) :
    columnValues (spreadsheetEmit (jsonEmit D ds)) c =
      (columnValues D c).map (coerceCell (typeFor ds c)) := by
  unfold columnValues spreadsheetEmit jsonEmit
  rw [List.map_map, List.map_map]
  congr 1
  funext r
  show cellOf (D.columns.map (fun c' => (c', emitCell ds r c'))) c =
    coerceCell (typeFor ds c) (cellOf r c)
  rw [cellOf_map_self _ hc]
  rfl

theorem mem_insertKey {acc : List (List Char)} {k x : List Char} :
    x ∈ insertKey acc k ↔ x ∈ acc ∨ x = k := by
  unfold insertKey
  split
  · rename_i hk
    constructor
    · exact Or.inl
    · rintro (h | rfl)
      · exact h
      · exact hk
  · simp [List.mem_append]

theorem mem_foldl_insertKey :
    ∀ (ks acc : List (List Char)) (x : List Char),
      x ∈ ks.foldl insertKey acc ↔ x ∈ acc ∨ x ∈ ks := by
  intro ks
  induction ks with
  | nil => simp
  | cons k ks ih =>
      intro acc x
      rw [List.foldl_cons, ih, mem_insertKey, List.mem_cons]
      tauto

theorem mem_seenKeys_aux :
    ∀ (objs : List (List (List Char × Value))) (acc : List (List Char)) (x : List Char),
      x ∈ objs.foldl (fun acc r => (recordKeys r).foldl insertKey acc) acc ↔
        x ∈ acc ∨ ∃ r ∈ objs, x ∈ recordKeys r := by
  intro objs
  induction objs with
  | nil =>
      intro acc x
      rw [List.foldl_nil]
      constructor
      · exact Or.inl
      · rintro (h | ⟨r, hr, _⟩)
        · exact h
        · exact absurd hr (List.not_mem_nil r)
  | cons r rs ih =>
      intro acc x
      rw [List.foldl_cons, ih, mem_foldl_insertKey]
      constructor
      · rintro ((h | h) | ⟨r', hr', h⟩)
        · exact Or.inl h
        · exact Or.inr ⟨r, by simp, h⟩
        · exact Or.inr ⟨r', by simp [hr'], h⟩
      · rintro (h | ⟨r', hr', h⟩)
        · exact Or.inl (Or.inl h)
        · rcases List.mem_cons.mp hr' with rfl | hr'
          · exact Or.inl (Or.inr h)
          · exact Or.inr ⟨r', hr', h⟩

theorem mem_seenKeys (objs : List (List (List Char × Value))) (x : List Char) :
    x ∈ seenKeys objs ↔ ∃ r ∈ objs, x ∈ recordKeys r := by
  unfold seenKeys
  rw [mem_seenKeys_aux]
  constructor
  · rintro (h | h)
    · exact absurd h (List.not_mem_nil x)
    · exact h
  · exact Or.inr

theorem jsonEmit_keys {D : Dataset} {ds : List ColumnDescriptor}
    {r : List (List Char × Value)} (hr : r ∈ jsonEmit D ds) :
    recordKeys r = D.columns := by
  unfold jsonEmit at hr
  obtain ⟨r0, _, rfl⟩ := List.mem_map.mp hr
  unfold recordKeys
  rw [List.map_map]
  have hcomp : (Prod.fst ∘ fun c' => (c', emitCell ds r0 c')) =
      fun c' : List Char => c' := rfl
  rw [hcomp, List.map_id']

theorem roundTrip_columns (D : Dataset) (ds : List ColumnDescriptor)
    (hne : D.records ≠ []) (c : List Char) :
    c ∈ (spreadsheetEmit (jsonEmit D ds)).columns ↔ c ∈ D.columns := by
  show c ∈ seenKeys (jsonEmit D ds) ↔ _
  rw [mem_seenKeys]
  constructor
  · rintro ⟨r, hr, hc⟩
    rw [jsonEmit_keys hr] at hc
    exact hc
  · intro hc
    cases hD : D.records with
    | nil => exact absurd hD hne
    | cons r0 rs =>
        refine ⟨D.columns.map (fun c' => (c', emitCell ds r0 c')), ?_, ?_⟩
        · unfold jsonEmit
          rw [hD, List.map_cons]
          exact List.mem_cons_self _ _
        · unfold recordKeys
          rw [List.map_map]
          have hcomp : (Prod.fst ∘ fun c' => (c', emitCell ds r0 c')) =
              fun c' : List Char => c' := rfl
          rw [hcomp, List.map_id']
          exact hc

/-- C6 counterexample: a dataset with a declared column but no records
round-trips to an empty column set — the spreadsheet emitter's header is the
union of keys across the (zero) emitted objects, so the set of column names
is not preserved. -/
theorem emptyDatasetRoundTripLosesColumns :
    (['a'] ∈ (Dataset.mk [['a']] []).columns) ∧
      ['a'] ∉ (spreadsheetEmit (jsonEmit ⟨[['a']], []⟩
        (analyzeDataset ⟨[['a']], []⟩))).columns := by
  constructor
  · decide
  · decide

/-- C6 amended: for every dataset with at least one record, the round trip
JSON-emit ∘ spreadsheet-emit ∘ JSON-emit preserves the record count and the
set of column names, and each column's re-inferred type equals the original
inferred type or text (it may widen toward text but never narrows; in this
model the coercions are predicate-faithful, so it is in fact unchanged). -/
theorem roundTripPreservesShape (D : Dataset) (h : D.records ≠ []) :
    (jsonEmit (spreadsheetEmit (jsonEmit D (analyzeDataset D)))
        (analyzeDataset (spreadsheetEmit (jsonEmit D (analyzeDataset D))))).length =
        D.records.length ∧
      (∀ c, c ∈ (spreadsheetEmit (jsonEmit D (analyzeDataset D))).columns ↔
        c ∈ D.columns) ∧
      (∀ c ∈ D.columns,
        (analyzeColumn (spreadsheetEmit (jsonEmit D (analyzeDataset D))) c).inferredType =
            (analyzeColumn D c).inferredType ∨
          (analyzeColumn (spreadsheetEmit (jsonEmit D (analyzeDataset D))) c).inferredType =
            ColType.text) := by
  refine ⟨?_, fun c => roundTrip_columns D (analyzeDataset D) h c, fun c hc => Or.inl ?_⟩
  · show ((spreadsheetEmit (jsonEmit D (analyzeDataset D))).records.map _).length = _
    rw [List.length_map]
    show ((jsonEmit D (analyzeDataset D))).length = _
    unfold jsonEmit
    rw [List.length_map]
  · rw [analyzeColumn_of_map (columnValues_roundtrip D (analyzeDataset D) hc)]

theorem roundTripPreservesShape_witness :
    (jsonEmit (spreadsheetEmit (jsonEmit ⟨[['a']], [[(['a'], Value.int 1)]]⟩
        (analyzeDataset ⟨[['a']], [[(['a'], Value.int 1)]]⟩)))
        (analyzeDataset (spreadsheetEmit (jsonEmit ⟨[['a']], [[(['a'], Value.int 1)]]⟩
          (analyzeDataset ⟨[['a']], [[(['a'], Value.int 1)]]⟩))))).length =
        (Dataset.mk [['a']] [[(['a'], Value.int 1)]]).records.length ∧
      (∀ c, c ∈ (spreadsheetEmit (jsonEmit ⟨[['a']], [[(['a'], Value.int 1)]]⟩
          (analyzeDataset ⟨[['a']], [[(['a'], Value.int 1)]]⟩))).columns ↔
        c ∈ (Dataset.mk [['a']] [[(['a'], Value.int 1)]]).columns) ∧
      (∀ c ∈ (Dataset.mk [['a']] [[(['a'], Value.int 1)]]).columns,
        (analyzeColumn (spreadsheetEmit (jsonEmit ⟨[['a']], [[(['a'], Value.int 1)]]⟩
            (analyzeDataset ⟨[['a']], [[(['a'], Value.int 1)]]⟩))) c).inferredType =
            (analyzeColumn ⟨[['a']], [[(['a'], Value.int 1)]]⟩ c).inferredType ∨
          (analyzeColumn (spreadsheetEmit (jsonEmit ⟨[['a']], [[(['a'], Value.int 1)]]⟩
            (analyzeDataset ⟨[['a']], [[(['a'], Value.int 1)]]⟩))) c).inferredType =
            ColType.text) :=
  roundTripPreservesShape ⟨[['a']], [[(['a'], Value.int 1)]]⟩ (by simp)

end WebConversor
